import Mathlib

/-!
# Verification development for `ankored/crawl`

A shallow embedding of the crawler: the admission filter (`filter/filter.go`),
the link resolver and page fetcher (`scrape/scrape.go`) and the orchestrator
(`main.go`, `realMain`), together with the functions of Go's `strings` and
`net/url` packages that those files call.

* A Go string is a byte sequence.  It is modelled as `List Char`, one
  character per byte (the character whose code is the byte's value).
* The library functions (`url.Parse`, `(*URL).String`, `(*URL).EscapedPath`,
  `(*URL).ResolveReference`, `(*URL).Hostname`, `strings.Split`, ...) are
  transcribed from the Go standard library, function by function and under
  the library's names; an `error` result is `none`.  The host of a URL is
  parsed as by Go 1.26: outside square brackets it has one colon at most,
  before the port, and between square brackets it is an IPv6 address
  (`netip.ParseAddr`).  `url.resolvePath` is the loop over `strings.Cut`
  with the builder `dst` and the flag `first`; releases of the library
  differ on a path with an empty segment after a `..` (`/a/..//x`), and the
  statements about reference resolution are about paths without `//`.
* Reference resolution is compared with RFC 3986, section 5.2, written from
  the text of the RFC (namespace `rfc3986`).
* The map `visited` of the filter is the list of its keys.
* `realMain` is a step relation on the channels and goroutines: one step per
  channel operation, the `select` being free to take any ready case.  What
  `FetchLinks` returns for a page is part of the step, so an execution fixes
  both the schedule and the pages met.
-/

namespace Crawl

/-! ## Package `strings` -/

namespace strings

/-- Go `strings.HasPrefix`. -/
def HasPrefix (s p : List Char) : Bool := p.isPrefixOf s

/-- Go `strings.HasSuffix`. -/
def HasSuffix (s p : List Char) : Bool := p.isSuffixOf s

/-- Go `strings.TrimSuffix`: `s` without the trailing `suffix`, or `s` itself
when it does not end in `suffix`. -/
def TrimSuffix (s suffix : List Char) : List Char :=
  if HasSuffix s suffix then s.take (s.length - suffix.length) else s

/-- Go `strings.Cut` with a one-byte separator: the text before and after
the first `sep`, and whether `sep` was found. -/
def Cut : List Char → Char → List Char × List Char × Bool
  | [], _ => ([], [], false)
  | c :: rest, sep =>
    if c = sep then ([], rest, true)
    else ((c :: (Cut rest sep).1), (Cut rest sep).2.1, (Cut rest sep).2.2)

/-- Go `strings.Split` with a one-byte separator. -/
def Split : List Char → Char → List (List Char)
  | [], _ => [[]]
  | c :: rest, sep =>
    if c = sep then [] :: Split rest sep
    else
      match Split rest sep with
      | [] => [[c]]
      | p :: ps => (c :: p) :: ps

/-- Go `strings.Index`: the position of the first occurrence of `sub`. -/
def Index : List Char → List Char → Option Nat
  | [], sub => if sub.isEmpty then some 0 else none
  | c :: rest, sub =>
    if sub.isPrefixOf (c :: rest) then some 0 else (Index rest sub).map (· + 1)

/-- Go `strings.LastIndexByte` (and `strings.LastIndex` with a one-byte
needle): the position of the last occurrence of `c`. -/
def LastIndexByte : List Char → Char → Option Nat
  | [], _ => none
  | x :: rest, c =>
    match LastIndexByte rest c with
    | some i => some (i + 1)
    | none => if x = c then some 0 else none

/-- Go `strings.Count` with a one-byte needle. -/
def Count (s : List Char) (c : Char) : Nat := s.count c

/-- Go `strings.Contains` with a one-byte needle. -/
def Contains (s : List Char) (c : Char) : Bool := s.contains c

/-- Go `strings.ToLower` on ASCII text. -/
def ToLower (s : List Char) : List Char :=
  s.map fun c => if 65 ≤ c.toNat ∧ c.toNat ≤ 90 then Char.ofNat (c.toNat + 32) else c

end strings

/-! ## Package `net/netip` -/

namespace netip

/-- Go `netip.Addr`, reduced to what `net/url` asks of a parsed address:
whether it is an IPv4 address. -/
structure Addr where
  /-- Go `Addr.Is4`. -/
  Is4 : Bool
deriving DecidableEq, Repr

/-- The loop of Go `netip.parseIPv4Fields` over the rest of the text: `prev`
is the byte before (`none` at the first byte), `val`, `pos` and `digLen` are
the variables of the loop; `true` for a nil error. -/
def parseIPv4FieldsLoop : List Char → Option Char → Nat → Nat → Nat → Bool
  | [], _, _, pos, _ => decide (¬ pos < 3)
  | c :: rest, prev, val, pos, digLen =>
    if 48 ≤ c.toNat ∧ c.toNat ≤ 57 then
      if digLen = 1 ∧ val = 0 then false
      else if val * 10 + (c.toNat - 48) > 255 then false
      else parseIPv4FieldsLoop rest (some c) (val * 10 + (c.toNat - 48)) pos (digLen + 1)
    else if c = '.' then
      if prev = none ∨ rest = [] ∨ prev = some '.' then false
      else if pos = 3 then false
      else parseIPv4FieldsLoop rest (some c) 0 (pos + 1) 0
    else false

/-- Go `netip.parseIPv4Fields` on the text `s`: `true` for a nil error. -/
def parseIPv4Fields (s : List Char) : Bool := parseIPv4FieldsLoop s none 0 0 0

/-- A hexadecimal digit, as the group scan of Go `netip.parseIPv6` tests it. -/
def isHexDigit (c : Char) : Bool :=
  (48 ≤ c.toNat && c.toNat ≤ 57) || (97 ≤ c.toNat && c.toNat ≤ 102) ||
    (65 ≤ c.toNat && c.toNat ≤ 70)

/-- The main loop of Go `netip.parseIPv6`, `for i < 16`, with `fuel` turns
left: `s` is the text left, `i` the number of bytes filled and `ellipsis` the
position of the `::`.  The result is the three variables after the loop,
`none` for an error.  A group is one to four hexadecimal digits (with four
digits at most its value is below 2^16). -/
def parseIPv6Loop : Nat → List Char → Nat → Option Nat → Option (List Char × Nat × Option Nat)
  | 0, s, i, ellipsis => some (s, i, ellipsis)
  | fuel + 1, s, i, ellipsis =>
    if ¬ i < 16 then some (s, i, ellipsis)
    else if (s.takeWhile isHexDigit).length > 4 then none
    else if (s.takeWhile isHexDigit).length = 0 then none
    else if (s.dropWhile isHexDigit).head? = some '.' then
      if ellipsis = none ∧ i ≠ 12 then none
      else if i + 4 > 16 then none
      else if parseIPv4Fields s then some ([], i + 4, ellipsis)
      else none
    else if s.dropWhile isHexDigit = [] then some ([], i + 2, ellipsis)
    else if (s.dropWhile isHexDigit).head? ≠ some ':' then none
    else if (s.dropWhile isHexDigit).length = 1 then none
    else if ((s.dropWhile isHexDigit).drop 1).head? = some ':' then
      if ellipsis.isSome then none
      else if (s.dropWhile isHexDigit).drop 2 = [] then some ([], i + 2, some (i + 2))
      else parseIPv6Loop fuel ((s.dropWhile isHexDigit).drop 2) (i + 2) (some (i + 2))
    else parseIPv6Loop fuel ((s.dropWhile isHexDigit).drop 1) (i + 2) ellipsis

/-- Go `netip.parseIPv6` on the address text `s`, the zone already split
off: `true` for a nil error.  Eight turns of the loop fill the sixteen
bytes. -/
def parseIPv6Groups (s : List Char) : Bool :=
  if strings.HasPrefix s [':', ':'] ∧ s.drop 2 = [] then true
  else
    match parseIPv6Loop 8 (if strings.HasPrefix s [':', ':'] then s.drop 2 else s) 0
        (if strings.HasPrefix s [':', ':'] then some 0 else none) with
    | none => false
    | some (rest, i, ellipsis) =>
      if rest ≠ [] then false
      else if i < 16 then ellipsis.isSome
      else !ellipsis.isSome

/-- Go `netip.parseIPv6`: `true` for a nil error.  The zone is what follows
the first `%` and is not empty. -/
def parseIPv6 (inp : List Char) : Bool :=
  match strings.Index inp ['%'] with
  | some i => if inp.drop (i + 1) = [] then false else parseIPv6Groups (inp.take i)
  | none => parseIPv6Groups inp

/-- The scan of Go `netip.ParseAddr` over the rest of the text `s`: the first
of the bytes `.`, `:` and `%` decides how `s` is read. -/
def ParseAddrLoop (s : List Char) : List Char → Option Addr
  | [] => none
  | c :: rest =>
    if c = '.' then (if parseIPv4Fields s then some { Is4 := true } else none)
    else if c = ':' then (if parseIPv6 s then some { Is4 := false } else none)
    else if c = '%' then none
    else ParseAddrLoop s rest

/-- Go `netip.ParseAddr`: `none` for an error. -/
def ParseAddr (s : List Char) : Option Addr := ParseAddrLoop s s

end netip

/-! ## Package `net/url` -/

namespace url

/-- The `encoding` modes of `net/url`. -/
inductive encoding where
  | encodePath
  | encodePathSegment
  | encodeHost
  | encodeZone
  | encodeUserPassword
  | encodeQueryComponent
  | encodeFragment
deriving DecidableEq, Repr

open encoding

/-- ASCII letter or digit. -/
def isAlnum (c : Char) : Bool :=
  (97 ≤ c.toNat && c.toNat ≤ 122) || (65 ≤ c.toNat && c.toNat ≤ 90) ||
    (48 ≤ c.toNat && c.toNat ≤ 57)

/-- Go `url.ishex`. -/
def ishex (c : Char) : Bool :=
  (48 ≤ c.toNat && c.toNat ≤ 57) || (97 ≤ c.toNat && c.toNat ≤ 102) ||
    (65 ≤ c.toNat && c.toNat ≤ 70)

/-- Go `url.unhex`. -/
def unhex (c : Char) : Nat :=
  if 48 ≤ c.toNat ∧ c.toNat ≤ 57 then c.toNat - 48
  else if 97 ≤ c.toNat ∧ c.toNat ≤ 102 then c.toNat - 97 + 10
  else if 65 ≤ c.toNat ∧ c.toNat ≤ 70 then c.toNat - 65 + 10
  else 0

/-- Go `url.shouldEscape`: whether byte `c` must be percent-escaped when it
appears in the part of a URL that `mode` names. -/
def shouldEscape (c : Char) (mode : encoding) : Bool :=
  if isAlnum c then false
  else if (mode = encodeHost ∨ mode = encodeZone) ∧
      c ∈ ['!', '$', '&', '\'', '(', ')', '*', '+', ',', ';', '=', ':', '[', ']',
        '<', '>', '"'] then false
  else if c ∈ ['-', '_', '.', '~'] then false
  else if c ∈ ['$', '&', '+', ',', '/', ':', ';', '=', '?', '@'] ∧
      mode = encodePath then decide (c = '?')
  else if c ∈ ['$', '&', '+', ',', '/', ':', ';', '=', '?', '@'] ∧
      mode = encodePathSegment then
    decide (c = '/' ∨ c = ';' ∨ c = ',' ∨ c = '?')
  else if c ∈ ['$', '&', '+', ',', '/', ':', ';', '=', '?', '@'] ∧
      mode = encodeUserPassword then
    decide (c = '@' ∨ c = '/' ∨ c = '?' ∨ c = ':')
  else if c ∈ ['$', '&', '+', ',', '/', ':', ';', '=', '?', '@'] ∧
      mode = encodeQueryComponent then true
  else if c ∈ ['$', '&', '+', ',', '/', ':', ';', '=', '?', '@'] ∧
      mode = encodeFragment then false
  else if mode = encodeFragment ∧ c ∈ ['!', '(', ')', '*'] then false
  else true

/-- The table `upperhex` of `net/url`. -/
def upperhex (n : Nat) : Char := "0123456789ABCDEF".toList.getD n '0'

/-- Go `url.escape`. -/
def escape : List Char → encoding → List Char
  | [], _ => []
  | c :: rest, mode =>
    if c = ' ' ∧ mode = encodeQueryComponent then '+' :: escape rest mode
    else if shouldEscape c mode then
      '%' :: upperhex (c.toNat / 16 % 16) :: upperhex (c.toNat % 16) :: escape rest mode
    else c :: escape rest mode

/-- Go `url.unescape`: `none` stands for the error results (`EscapeError`,
`InvalidHostError`). -/
def unescape : List Char → encoding → Option (List Char)
  | [], _ => some []
  | '%' :: a :: b :: rest, mode =>
    if !ishex a || !ishex b then none
    else if mode = encodeHost ∧ unhex a < 8 ∧ ¬ (a = '2' ∧ b = '5') then none
    else if mode = encodeZone ∧ ¬ (a = '2' ∧ b = '5') ∧
        Char.ofNat (unhex a * 16 + unhex b) ≠ ' ' ∧
        shouldEscape (Char.ofNat (unhex a * 16 + unhex b)) encodeHost then none
    else (unescape rest mode).map (Char.ofNat (unhex a * 16 + unhex b) :: ·)
  | c :: rest, mode =>
    if c = '%' then none
    else if c = '+' then
      (unescape rest mode).map ((if mode = encodeQueryComponent then ' ' else '+') :: ·)
    else if (mode = encodeHost ∨ mode = encodeZone) ∧ c.toNat < 128 ∧
        shouldEscape c encodeHost then none
    else (unescape rest mode).map (c :: ·)

/-- Go `url.validEncoded`. -/
def validEncoded (s : List Char) (mode : encoding) : Bool :=
  s.all fun c =>
    if c ∈ ['!', '$', '&', '\'', '(', ')', '*', '+', ',', ';', '=', ':', '@'] then true
    else if c ∈ ['[', ']'] then true
    else if c = '%' then true
    else !shouldEscape c mode

/-- Go `url.Userinfo`. -/
structure Userinfo where
  username : List Char
  password : List Char
  passwordSet : Bool
deriving DecidableEq, Repr

/-- Go `(*Userinfo).String`. -/
def Userinfo.String (u : Userinfo) : List Char :=
  escape u.username encodeUserPassword ++
    (if u.passwordSet then ':' :: escape u.password encodeUserPassword else [])

/-- Go `url.URL`.  `User` is `none` for the nil pointer. -/
structure URL where
  Scheme : List Char
  Opaque : List Char
  User : Option Userinfo
  Host : List Char
  Path : List Char
  RawPath : List Char
  OmitHost : Bool
  ForceQuery : Bool
  RawQuery : List Char
  Fragment : List Char
  RawFragment : List Char
deriving DecidableEq, Repr

/-- The zero value `URL{}`. -/
def URL.zero : URL :=
  { Scheme := [], Opaque := [], User := none, Host := [], Path := [], RawPath := [],
    OmitHost := false, ForceQuery := false, RawQuery := [], Fragment := [],
    RawFragment := [] }

/-- Go `(*URL).EscapedPath`. -/
def URL.EscapedPath (u : URL) : List Char :=
  if u.RawPath ≠ [] ∧ validEncoded u.RawPath encodePath ∧
      unescape u.RawPath encodePath = some u.Path then u.RawPath
  else if u.Path = ['*'] then ['*']
  else escape u.Path encodePath

/-- Go `(*URL).EscapedFragment`. -/
def URL.EscapedFragment (u : URL) : List Char :=
  if u.RawFragment ≠ [] ∧ validEncoded u.RawFragment encodeFragment ∧
      unescape u.RawFragment encodeFragment = some u.Fragment then u.RawFragment
  else escape u.Fragment encodeFragment

/-- The authority part written by `(*URL).String`: everything between the
scheme and the path. -/
def URL.authorityString (u : URL) : List Char :=
  if u.Scheme ≠ [] ∨ u.Host ≠ [] ∨ u.User.isSome then
    if u.OmitHost ∧ u.Host = [] ∧ u.User.isNone then []
    else
      (if u.Host ≠ [] ∨ u.Path ≠ [] ∨ u.User.isSome then ['/', '/'] else []) ++
      (match u.User with
        | some ui => ui.String ++ ['@']
        | none => []) ++
      (if u.Host ≠ [] then escape u.Host encodeHost else [])
  else []

/-- The scheme, authority and path written by `(*URL).String`, that is the
contents of its buffer before the query is appended. -/
def URL.hierString (u : URL) : List Char :=
  let buf := if u.Scheme ≠ [] then u.Scheme ++ [':'] else []
  if u.Opaque ≠ [] then buf ++ u.Opaque
  else
    let buf := buf ++ u.authorityString
    let path := u.EscapedPath
    let buf := if path ≠ [] ∧ path.head? ≠ some '/' ∧ u.Host ≠ [] then buf ++ ['/'] else buf
    let buf :=
      if buf = [] ∧ strings.Contains (strings.Cut path '/').1 ':' then buf ++ ['.', '/']
      else buf
    buf ++ path

/-- The query written by `(*URL).String`. -/
def URL.queryString (u : URL) : List Char :=
  if u.ForceQuery ∨ u.RawQuery ≠ [] then '?' :: u.RawQuery else []

/-- The fragment written by `(*URL).String`. -/
def URL.fragmentString (u : URL) : List Char :=
  if u.Fragment ≠ [] then '#' :: u.EscapedFragment else []

/-- Go `(*URL).String`. -/
def URL.String (u : URL) : List Char :=
  u.hierString ++ u.queryString ++ u.fragmentString

/-- Go `(*URL).setPath`: `none` for the error result. -/
def URL.setPath (u : URL) (p : List Char) : Option URL :=
  match unescape p encodePath with
  | none => none
  | some path =>
    some { u with Path := path, RawPath := if p = escape path encodePath then [] else p }

/-- Go `(*URL).setFragment`: `none` for the error result. -/
def URL.setFragment (u : URL) (f : List Char) : Option URL :=
  match unescape f encodeFragment with
  | none => none
  | some frag =>
    some { u with
      Fragment := frag, RawFragment := if f = escape frag encodeFragment then [] else f }

/-- Go `url.stringContainsCTLByte`. -/
def stringContainsCTLByte (s : List Char) : Bool :=
  s.any fun b => b.toNat < 32 || b.toNat = 127

/-- The loop of Go `url.getScheme`, at byte `i` of `rawURL`. -/
def getSchemeLoop (rawURL : List Char) : List Char → Nat → Option (List Char × List Char)
  | [], _ => some ([], rawURL)
  | c :: rest, i =>
    if (97 ≤ c.toNat ∧ c.toNat ≤ 122) ∨ (65 ≤ c.toNat ∧ c.toNat ≤ 90) then
      getSchemeLoop rawURL rest (i + 1)
    else if (48 ≤ c.toNat ∧ c.toNat ≤ 57) ∨ c = '+' ∨ c = '-' ∨ c = '.' then
      if i = 0 then some ([], rawURL) else getSchemeLoop rawURL rest (i + 1)
    else if c = ':' then
      if i = 0 then none else some (rawURL.take i, rest)
    else some ([], rawURL)

/-- Go `url.getScheme`: the scheme and the rest, `none` for the error
"missing protocol scheme". -/
def getScheme (rawURL : List Char) : Option (List Char × List Char) :=
  getSchemeLoop rawURL rawURL 0

/-- Go `url.validOptionalPort`. -/
def validOptionalPort : List Char → Bool
  | [] => true
  | c :: rest => c = ':' && rest.all fun b => 48 ≤ b.toNat && b.toNat ≤ 57

/-- Go `url.validUserinfo`. -/
def validUserinfo (s : List Char) : Bool :=
  s.all fun r =>
    isAlnum r ||
      r ∈ ['-', '.', '_', ':', '~', '!', '$', '&', '\'', '(', ')', '*', '+', ',', ';',
        '=', '%', '@']

/-- Go `url.parseHost`: `none` for the error results.  A host with a square
bracket is an IP literal: the text between the last `[` and the last `]` is
an IPv6 address (`netip.ParseAddr`, not an IPv4 one), with an optional zone
after `%25`, and only a port follows the `]`.  In a host without a bracket
the text from the first colon on is the port. -/
def parseHost (host : List Char) : Option (List Char) :=
  match strings.LastIndexByte host '[' with
  | some openBracketIdx =>
    match strings.LastIndexByte host ']' with
    | none => none
    | some closeBracketIdx =>
      if !validOptionalPort (host.drop (closeBracketIdx + 1)) then none
      else
        match unescape (host.drop (closeBracketIdx + 1)) encodeHost,
            (match strings.Index ((host.take closeBracketIdx).drop (openBracketIdx + 1))
                ['%', '2', '5'] with
              | some zoneIdx =>
                match unescape
                    (((host.take closeBracketIdx).drop (openBracketIdx + 1)).take zoneIdx)
                    encodeHost,
                  unescape
                    (((host.take closeBracketIdx).drop (openBracketIdx + 1)).drop zoneIdx)
                    encodeZone with
                | some hostPart, some zonePart => some (hostPart ++ zonePart)
                | _, _ => none
              | none =>
                unescape ((host.take closeBracketIdx).drop (openBracketIdx + 1)) encodeHost) with
        | some unescapedColonPort, some unescapedHostname =>
          match netip.ParseAddr unescapedHostname with
          | some addr =>
            if addr.Is4 then none
            else some ('[' :: unescapedHostname ++ ']' :: unescapedColonPort)
          | none => none
        | _, _ => none
  | none =>
    match strings.Index host [':'] with
    | some i =>
      if !validOptionalPort (host.drop i) then none else unescape host encodeHost
    | none => unescape host encodeHost

/-- Go `url.parseAuthority`: the user and the host, `none` for the error
results. -/
def parseAuthority (authority : List Char) : Option (Option Userinfo × List Char) :=
  match strings.LastIndexByte authority '@' with
  | none => (parseHost authority).map fun host => (none, host)
  | some i =>
    match parseHost (authority.drop (i + 1)) with
    | none => none
    | some host =>
      if !validUserinfo (authority.take i) then none
      else if !strings.Contains (authority.take i) ':' then
        (unescape (authority.take i) encodeUserPassword).map fun n =>
          (some { username := n, password := [], passwordSet := false }, host)
      else
        match unescape (strings.Cut (authority.take i) ':').1 encodeUserPassword,
            unescape (strings.Cut (authority.take i) ':').2.1 encodeUserPassword with
        | some n, some p => some (some { username := n, password := p, passwordSet := true }, host)
        | _, _ => none

/-- The tail of Go `url.parse`, once the scheme and the query are split off:
`url` carries them and `rest` is what remains of the text. -/
def parseRest (url : URL) (rest : List Char) (viaRequest : Bool) : Option URL :=
  if !strings.HasPrefix rest ['/'] ∧ url.Scheme ≠ [] then some { url with Opaque := rest }
  else if !strings.HasPrefix rest ['/'] ∧ viaRequest then none
  else if !strings.HasPrefix rest ['/'] ∧ strings.Contains (strings.Cut rest '/').1 ':' then
    none
  else if (url.Scheme ≠ [] ∨ (!viaRequest ∧ !strings.HasPrefix rest ['/', '/', '/'])) ∧
      strings.HasPrefix rest ['/', '/'] then
    match parseAuthority ((strings.Cut (rest.drop 2) '/').1) with
    | none => none
    | some (user, host) =>
      URL.setPath { url with User := user, Host := host }
        (if (strings.Cut (rest.drop 2) '/').2.2 then
          '/' :: (strings.Cut (rest.drop 2) '/').2.1
        else [])
  else if url.Scheme ≠ [] ∧ strings.HasPrefix rest ['/'] then
    URL.setPath { url with OmitHost := true } rest
  else URL.setPath url rest

/-- Go `url.parse`: `none` for the error results. -/
def parse (rawURL : List Char) (viaRequest : Bool) : Option URL :=
  if stringContainsCTLByte rawURL then none
  else if rawURL = [] ∧ viaRequest then none
  else if rawURL = ['*'] then some { URL.zero with Path := ['*'] }
  else
    match getScheme rawURL with
    | none => none
    | some (scheme, rest) =>
      if strings.HasSuffix rest ['?'] ∧ strings.Count rest '?' = 1 then
        parseRest { URL.zero with Scheme := strings.ToLower scheme, ForceQuery := true }
          (rest.take (rest.length - 1)) viaRequest
      else
        parseRest
          { URL.zero with
            Scheme := strings.ToLower scheme, RawQuery := (strings.Cut rest '?').2.1 }
          (strings.Cut rest '?').1 viaRequest

/-- Go `url.Parse`: `none` for the error results. -/
def Parse (rawURL : List Char) : Option URL :=
  match parse (strings.Cut rawURL '#').1 false with
  | none => none
  | some url =>
    if (strings.Cut rawURL '#').2.1 = [] then some url
    else url.setFragment (strings.Cut rawURL '#').2.1

/-- One turn of the loop of Go `url.resolvePath` on the path element `elem`:
the state is the builder `dst` and the flag `first`. -/
def resolveElem (st : List Char × Bool) (elem : List Char) : List Char × Bool :=
  if elem = ['.'] then (st.1, false)
  else if elem = ['.', '.'] then
    match strings.LastIndexByte (st.1.drop 1) '/' with
    | none => (['/'], true)
    | some index => ('/' :: (st.1.drop 1).take index, st.2)
  else ((if st.2 then st.1 else st.1 ++ ['/']) ++ elem, false)

/-- Go `url.resolvePath`. -/
def resolvePath (base ref : List Char) : List Char :=
  let full :=
    if ref = [] then base
    else if ref.head? ≠ some '/' then
      (match strings.LastIndexByte base '/' with
        | some i => base.take (i + 1)
        | none => []) ++ ref
    else ref
  if full = [] then []
  else
    let src := strings.Split full '/'
    let dst := (src.foldl resolveElem (['/'], true)).1
    let dst := if src.getLast? = some ['.'] ∨ src.getLast? = some ['.', '.'] then dst ++ ['/'] else dst
    if dst.length > 1 ∧ dst.get? 1 = some '/' then dst.drop 1 else dst

/-- Go `(*URL).ResolveReference`. -/
def URL.ResolveReference (u ref : URL) : URL :=
  let url := if ref.Scheme = [] then { ref with Scheme := u.Scheme } else ref
  if ref.Scheme ≠ [] ∨ ref.Host ≠ [] ∨ ref.User.isSome then
    (url.setPath (resolvePath ref.EscapedPath [])).getD url
  else if ref.Opaque ≠ [] then { url with User := none, Host := [], Path := [] }
  else
    let url :=
      if ref.Path = [] ∧ !ref.ForceQuery ∧ ref.RawQuery = [] then
        if ref.Fragment = [] then
          { url with
            RawQuery := u.RawQuery, Fragment := u.Fragment, RawFragment := u.RawFragment }
        else { url with RawQuery := u.RawQuery }
      else url
    if ref.Path = [] ∧ u.Opaque ≠ [] then
      { url with Opaque := u.Opaque, User := none, Host := [], Path := [] }
    else
      let url := { url with Host := u.Host, User := u.User }
      (url.setPath (resolvePath u.EscapedPath ref.EscapedPath)).getD url

/-- Go `url.splitHostPort`, first component: the host without a valid port
and without the square brackets of an IPv6 literal. -/
def splitHostPort (hostPort : List Char) : List Char :=
  let host :=
    match strings.LastIndexByte hostPort ':' with
    | some colon =>
      if validOptionalPort (hostPort.drop colon) then hostPort.take colon else hostPort
    | none => hostPort
  if strings.HasPrefix host ['['] ∧ strings.HasSuffix host [']'] then
    (host.drop 1).take (host.length - 2)
  else host

/-- Go `(*URL).Hostname`. -/
def URL.Hostname (u : URL) : List Char := splitHostPort u.Host

end url

/-! ## Package `filter` (`filter/filter.go`) -/

namespace filter

open url

/-- Go `filter.baseDomain`: strips any subdomain and returns the main domain,
the second to last piece of the host name split at the dots. -/
def baseDomain (u : URL) : List Char :=
  let parts := strings.Split u.Hostname '.'
  if parts.length = 1 then parts.getD 0 []
  else parts.getD (parts.length - 2) []

/-- Go `filter.Filter`.  The map `visited`, used as a set of strings, is the
list of its keys. -/
structure Filter where
  base : URL
  baseDomain : List Char
  visited : List (List Char)
deriving DecidableEq, Repr

/-- Go `filter.NewFilter`. -/
def NewFilter (base : URL) : Filter :=
  { base := base, baseDomain := baseDomain base, visited := [] }

/-- The copy `u` that `Visit` normalises: the trailing slash of the path
trimmed and the scheme set to `https` (lines 41 to 47 of `filter.go`). -/
def normalize (v : URL) : URL :=
  { v with Path := strings.TrimSuffix v.Path ['/'], Scheme := "https".toList }

/-- Go `(*Filter).Visit`: the returned boolean and the filter afterwards. -/
def Filter.Visit (f : Filter) (v : URL) : Bool × Filter :=
  if (normalize v).String ∈ f.visited then (false, f)
  else if f.baseDomain ≠ filter.baseDomain (normalize v) then (false, f)
  else (true, { f with visited := (normalize v).String :: f.visited })

/-- A finite sequence of `Visit` calls on one filter: the results of the
calls in order, and the filter afterwards. -/
def Filter.visitAll : Filter → List URL → List Bool × Filter
  | f, [] => ([], f)
  | f, v :: vs =>
    ((f.Visit v).1 :: ((f.Visit v).2.visitAll vs).1, ((f.Visit v).2.visitAll vs).2)

end filter

/-! ## Package `scrape` (`scrape/scrape.go`) -/

namespace scrape

open url

/-- Go `scrape.ErrorBadResponse`: occurs when fetching a page returns a
non-2XX code. -/
structure ErrorBadResponse where
  StatusCode : Int
  Msg : List Char
deriving DecidableEq, Repr

/-- The `error` values in play in package `scrape`: the value built by
`fmt.Errorf`, which carries only its formatted text, and the typed
`ErrorBadResponse`. -/
inductive error where
  | errorf (text : List Char)
  | badResponse (e : ErrorBadResponse)
deriving DecidableEq, Repr

/-- Go `error.Error()`.  For `ErrorBadResponse` it is
`fmt.Sprintf("received status %d with message %s", e.StatusCode, e.Msg)`. -/
def error.Error : error → List Char
  | .errorf text => text
  | .badResponse e =>
    "received status ".toList ++ (toString e.StatusCode).toList ++
      " with message ".toList ++ e.Msg

/-- The part of Go `http.Response` that `FetchLinks` reads. -/
structure Response where
  StatusCode : Int
  Body : List Char
deriving DecidableEq, Repr

/-- Go `html.NodeType`. -/
inductive NodeType where
  | ErrorNode
  | TextNode
  | DocumentNode
  | ElementNode
  | CommentNode
  | DoctypeNode
  | RawNode
deriving DecidableEq, Repr

/-- Go `html.Attribute`. -/
structure Attribute where
  Namespace : List Char
  Key : List Char
  Val : List Char
deriving DecidableEq, Repr

/-- Go `html.Node`, with the chain `FirstChild`, `NextSibling`, ... as the
list of children. -/
inductive Node where
  | mk (Type' : NodeType) (Data : List Char) (Attr : List Attribute) (children : List Node)

/-- The inner loop of `parseAnchorLinks` (lines 92 to 97): the value of the
first `href` attribute, if any. -/
def firstHref : List Attribute → List (List Char)
  | [] => []
  | a :: rest => if a.Key = "href".toList then [a.Val] else firstHref rest

mutual
/-- The recursive function `f` of Go `scrape.parseAnchorLinks`. -/
def anchorLinks : Node → List (List Char)
  | .mk ty data attr children =>
    (if ty = NodeType.ElementNode ∧ data = "a".toList then firstHref attr else []) ++
      anchorLinksChildren children
/-- The loop of `f` over the children of a node (lines 101 to 103). -/
def anchorLinksChildren : List Node → List (List Char)
  | [] => []
  | c :: cs => anchorLinks c ++ anchorLinksChildren cs
end

/-- Go `scrape.parseAnchorLinks`.  The parser `html.Parse` of
`golang.org/x/net/html` is the parameter `htmlParse`. -/
def parseAnchorLinks (htmlParse : List Char → Except (List Char) Node) (r : List Char) :
    Except error (List (List Char)) :=
  match htmlParse r with
  | .error err => .error (.errorf ("error parsing html: ".toList ++ err))
  | .ok root => .ok (anchorLinks root)

/-- Go `scrape.linkToURL`: `none` is the nil result. -/
def linkToURL (reqURL : URL) (link : List Char) : Option URL :=
  match Parse link with
  | none => none
  | some p => some (reqURL.ResolveReference p)

/-- Go `(Scraper).FetchLinks`.  The HTTP client's `Get` is the parameter
`get`, with the text of the transport error on failure; the results are the
slice (`none` for nil) and the error (`none` for nil).

In the non-2xx branch `err` is nil, so the `%d` of the format prints
`%!d(<nil>)`. -/
def FetchLinks (get : List Char → Except (List Char) Response)
    (htmlParse : List Char → Except (List Char) Node) (u : URL) :
    Option (List URL) × Option error :=
  match get u.String with
  | .error err =>
    (none, some (.errorf ("error getting ".toList ++ u.String ++ ": ".toList ++ err)))
  | .ok resp =>
    if resp.StatusCode < 200 ∨ resp.StatusCode > 299 then
      (none, some (.errorf ("non 2xx code returned fetching ".toList ++ u.String ++
        ": %!d(<nil>)".toList)))
    else
      match parseAnchorLinks htmlParse resp.Body with
      | .error err =>
        (none, some (.errorf ("error parsing content of ".toList ++ u.String ++
          ": ".toList ++ err.Error)))
      | .ok links => (some (links.filterMap (linkToURL u)), none)

end scrape

/-! ## Package `main` (`main.go`, `realMain`) -/

namespace main

open url filter

/-- The capacity of the channel `queue` (line 54). -/
def queueCap : Nat := 64

/-- The parameters of `realMain`. -/
structure Config where
  base : URL
  numWorkers : Nat

/-- Where a worker goroutine (lines 95 to 109) stands.  A scraper is named
by the index `i` of the loop (line 63) that put it in the free list. -/
inductive Worker where
  /-- In `scraper.FetchLinks(u)` (line 100), holding `scraper`. -/
  | fetching (scraper : Nat) (u : URL)
  /-- About to send `scraper` to `freeList` (line 103), holding `urls`. -/
  | releasing (scraper : Nat) (urls : List URL)
  /-- In the loop of lines 106 to 108 with `urls` still to send to `queue`;
  with `urls` empty, at the deferred send on `done` (line 97). -/
  | enqueueing (urls : List URL)
  /-- The goroutine has ended. -/
  | exited
deriving DecidableEq, Repr

/-- Where the coordinator goroutine (lines 77 to 119) stands. -/
inductive Coordinator where
  /-- At the `select` (line 83). -/
  | selecting
  /-- At `scraper := <-freeList` (line 93), with the admitted `u`. -/
  | leasing (u : URL)
  /-- A `done` was received; about to evaluate `len(freeList) == numWorkers`. -/
  | checkFree
  /-- About to evaluate `len(queue) == 0`. -/
  | checkQueue
  /-- Both tests held; about to call `cancel()` (line 115). -/
  | cancelling
  /-- Returned after `<-ctx.Done()` (line 111). -/
  | returned
deriving DecidableEq, Repr

/-- The state of `realMain`: the channels, the filter, the goroutines. -/
structure State where
  queue : List URL
  freeList : List Nat
  f : Filter
  coord : Coordinator
  workers : List Worker
  /-- The main goroutine has sent the base URL (line 122). -/
  seeded : Bool
  /-- The channel `ctx.Done()` is closed. -/
  cancelled : Bool
  /-- The lines printed so far (line 89). -/
  printed : List (List Char)
deriving DecidableEq, Repr

/-- The state when the coordinator goroutine starts (lines 51 to 77). -/
def init (cfg : Config) : State :=
  { queue := [], freeList := List.range cfg.numWorkers, f := NewFilter cfg.base,
    coord := .selecting, workers := [], seeded := false, cancelled := false, printed := [] }

/-- The atomic steps of the goroutines of `realMain`. -/
inductive Step where
  /-- Main goroutine: `queue <- base` (line 122). -/
  | seed
  /-- Coordinator: the `select` takes `u := <-queue`, then `f.Visit(u)` and
  the print (lines 84 to 89). -/
  | recvQueue
  /-- Coordinator: `scraper := <-freeList` and the `go` statement (lines 93, 95). -/
  | lease
  /-- Coordinator: the `select` takes `<-done`, sent by worker `i` (lines 97, 112). -/
  | recvDone (i : Nat)
  /-- Coordinator: evaluates `len(freeList) == numWorkers` (line 114). -/
  | testFree
  /-- Coordinator: evaluates `len(queue) == 0` (line 114). -/
  | testQueue
  /-- Coordinator: `cancel()` (line 115). -/
  | cancel
  /-- Coordinator: the `select` takes `<-ctx.Done()` (line 110). -/
  | ctxDone
  /-- Worker `i`: `FetchLinks` returns `urls` (line 100). -/
  | fetch (i : Nat) (urls : List URL)
  /-- Worker `i`: `freeList <- scraper` (line 103). -/
  | release (i : Nat)
  /-- Worker `i`: `queue <- u` (line 107). -/
  | enqueue (i : Nat)
  /-- The base context is cancelled from outside (a signal, line 44). -/
  | extCancel
deriving DecidableEq, Repr

/-- One step of `realMain`: `none` when the step is not enabled in `s` (the
goroutine is elsewhere, or blocked on its channel). -/
def step (cfg : Config) (s : State) : Step → Option State
  | .seed =>
    if !s.seeded ∧ s.queue.length < queueCap then
      some { s with queue := s.queue ++ [cfg.base], seeded := true }
    else none
  | .recvQueue =>
    match s.coord, s.queue with
    | .selecting, u :: q =>
      if (s.f.Visit u).1 then
        some { s with
          queue := q, f := (s.f.Visit u).2, printed := s.printed ++ [u.String],
          coord := .leasing u }
      else some { s with queue := q, f := (s.f.Visit u).2 }
    | _, _ => none
  | .lease =>
    match s.coord, s.freeList with
    | .leasing u, scraper :: fl =>
      some { s with
        freeList := fl, workers := s.workers ++ [.fetching scraper u], coord := .selecting }
    | _, _ => none
  | .recvDone i =>
    match s.coord, s.workers.get? i with
    | .selecting, some (.enqueueing []) =>
      some { s with workers := s.workers.set i .exited, coord := .checkFree }
    | _, _ => none
  | .testFree =>
    match s.coord with
    | .checkFree =>
      some { s with
        coord := if s.freeList.length = cfg.numWorkers then .checkQueue else .selecting }
    | _ => none
  | .testQueue =>
    match s.coord with
    | .checkQueue =>
      some { s with coord := if s.queue.length = 0 then .cancelling else .selecting }
    | _ => none
  | .cancel =>
    match s.coord with
    | .cancelling => some { s with cancelled := true, coord := .selecting }
    | _ => none
  | .ctxDone =>
    match s.coord with
    | .selecting => if s.cancelled then some { s with coord := .returned } else none
    | _ => none
  | .fetch i urls =>
    match s.workers.get? i with
    | some (.fetching scraper _) =>
      some { s with workers := s.workers.set i (.releasing scraper urls) }
    | _ => none
  | .release i =>
    match s.workers.get? i with
    | some (.releasing scraper urls) =>
      if s.freeList.length < cfg.numWorkers then
        some { s with
          freeList := s.freeList ++ [scraper], workers := s.workers.set i (.enqueueing urls) }
      else none
    | _ => none
  | .enqueue i =>
    match s.workers.get? i with
    | some (.enqueueing (u :: rest)) =>
      if s.queue.length < queueCap then
        some { s with queue := s.queue ++ [u], workers := s.workers.set i (.enqueueing rest) }
      else none
    | _ => none
  | .extCancel => some { s with cancelled := true }

/-- The state after the steps `tr`, taken in order from `s`. -/
def runFrom (cfg : Config) : State → List Step → Option State
  | s, [] => some s
  | s, l :: tr =>
    match step cfg s l with
    | none => none
    | some s' => runFrom cfg s' tr

/-- The state after the steps `tr` of an execution of `realMain`. -/
def run (cfg : Config) (tr : List Step) : Option State := runFrom cfg (init cfg) tr

/-- The scraper a worker holds, if any. -/
def Worker.held : Worker → List Nat
  | .fetching scraper _ => [scraper]
  | .releasing scraper _ => [scraper]
  | .enqueueing _ => []
  | .exited => []

/-- The scrapers taken from the free list and not yet returned. -/
def State.held (s : State) : List Nat := s.workers.flatMap Worker.held

/-- The discovered URLs that started workers hold and have not yet put on
the queue. -/
def Worker.pending : Worker → List URL
  | .fetching _ _ => []
  | .releasing _ urls => urls
  | .enqueueing urls => urls
  | .exited => []

end main

/-! ## Predicates and inputs used in the statements -/

namespace url

/-- The two bytes that end the hierarchical part of a URL's text. -/
def isDelim (c : Char) : Bool := c = '?' || c = '#'

/-- A text without `?` and `#`. -/
def NoDelim (l : List Char) : Prop := ∀ c ∈ l, isDelim c = false

/-- What `url.Parse` guarantees of the raw fields it fills from the text: no
`#` in the query, neither `?` nor `#` in the opaque part. -/
def URL.WellFormed (u : URL) : Prop := '#' ∉ u.RawQuery ∧ NoDelim u.Opaque

end url

namespace strings

/-- Go `strings.Join`. -/
def Join : List (List Char) → List Char → List Char
  | [], _ => []
  | [a], _ => a
  | a :: b :: rest, sep => a ++ sep ++ Join (b :: rest) sep

end strings

namespace scrape

/-- The helper `must` of `scrape_test.go`: the URL parsed from a string (the
zero URL where the Go helper would stop the test). -/
def must (s : String) : url.URL := (url.Parse s.toList).getD url.URL.zero

/-- An HTML document whose body holds one anchor for each of `hrefs`, as
`html.Parse` builds it. -/
def page (hrefs : List String) : Node :=
  .mk .DocumentNode [] []
    [.mk .ElementNode "html".toList []
      [.mk .ElementNode "head".toList [] [],
        .mk .ElementNode "body".toList []
          (hrefs.map fun h =>
            .mk .ElementNode "a".toList [{ Namespace := [], Key := "href".toList, Val := h.toList }]
              [.mk .TextNode "link".toList [] []])]]

/-- An HTTP client that answers every request with status 200 and, as body,
the text of the requested URL (which the parsers below map to a page). -/
def echoGet : List Char → Except (List Char) Response :=
  fun u => .ok { StatusCode := 200, Body := u }

/-- The pages of a small site, parsed: `https://example.com` links to `/a`,
`https://example.com/a` links to `/b`, every other page has no link. -/
def chainSite : List Char → Except (List Char) Node :=
  fun body =>
    if body = "https://example.com".toList then .ok (page ["/a"])
    else if body = "https://example.com/a".toList then .ok (page ["/b"])
    else .ok (page [])

/-- The pages of a site whose base page links only to itself, parsed. -/
def selfSite : List Char → Except (List Char) Node :=
  fun _ => .ok (page ["https://example.com"])

/-- The pages of a site whose base page links to `/a` and `/b`, pages without
links, parsed. -/
def forkSite : List Char → Except (List Char) Node :=
  fun body =>
    if body = "https://example.com".toList then .ok (page ["/a", "/b"]) else .ok (page [])

/-- What a worker keeps of `urls, _ := scraper.FetchLinks(u)` (line 100 of
`main.go`): the links, none on an error. -/
def fetched (get : List Char → Except (List Char) Response)
    (htmlParse : List Char → Except (List Char) Node) (u : url.URL) : List url.URL :=
  (FetchLinks get htmlParse u).1.getD []

end scrape

namespace main

/-- Whether a worker holds a scraper: its fetch is in flight. -/
def Worker.holding : Worker → Bool
  | .fetching _ _ => true
  | .releasing _ _ => true
  | .enqueueing _ => false
  | .exited => false

/-- The number of fetches in flight. -/
def State.inFlight (s : State) : Nat := s.workers.countP Worker.holding

/-- The invariant of the pool: the free list and the held scrapers together
are the `numWorkers` scrapers made at the start. -/
def PoolInv (cfg : Config) (s : State) : Prop :=
  (s.freeList ++ s.held).Perm (List.range cfg.numWorkers)

/-- A crawl of `https://example.com` with one worker. -/
def oneWorker : Config := { base := scrape.must "https://example.com", numWorkers := 1 }

/-- A crawl of `https://example.com` with two workers. -/
def twoWorkers : Config := { base := scrape.must "https://example.com", numWorkers := 2 }

/-- An execution with one worker on the site `chainSite`, where the base page
links to `/a` and `/a` links to `/b`: the second worker has released its
scraper and still holds `/b` when the coordinator receives the first worker's
`done` and passes both tests of line 114. -/
def earlyCancelTrace : List Step :=
  [.seed, .recvQueue, .lease,
    .fetch 0 (scrape.fetched scrape.echoGet scrape.chainSite (scrape.must "https://example.com")),
    .release 0, .enqueue 0, .recvQueue, .lease,
    .fetch 1
      (scrape.fetched scrape.echoGet scrape.chainSite (scrape.must "https://example.com/a")),
    .release 1, .recvDone 0, .testFree, .testQueue]

/-- An execution with one worker on the site `selfSite`, where the base page
links only to itself: the `select` takes the worker's `done` while the link
is still on the queue, so the test of line 114 fails, and then takes the
link, which the filter rejects. -/
def selfLinkTrace : List Step :=
  [.seed, .recvQueue, .lease,
    .fetch 0 (scrape.fetched scrape.echoGet scrape.selfSite (scrape.must "https://example.com")),
    .release 0, .enqueue 0, .recvDone 0, .testFree, .testQueue, .recvQueue]

/-- The same crawl as `selfLinkTrace` when the `select` takes the link
before the `done`. -/
def selfLinkTraceQueueFirst : List Step :=
  [.seed, .recvQueue, .lease,
    .fetch 0 (scrape.fetched scrape.echoGet scrape.selfSite (scrape.must "https://example.com")),
    .release 0, .enqueue 0, .recvQueue, .recvDone 0, .testFree, .testQueue, .cancel]

/-- An execution with two workers on the site `forkSite`, both fetching at
once. -/
def twoFetchesTrace : List Step :=
  [.seed, .recvQueue, .lease,
    .fetch 0 (scrape.fetched scrape.echoGet scrape.forkSite (scrape.must "https://example.com")),
    .release 0, .enqueue 0, .enqueue 0, .recvQueue, .lease, .recvQueue, .lease]

/-- The state that `twoFetchesTrace` leads to. -/
def twoFetchesState : State := (run twoWorkers twoFetchesTrace).getD (init twoWorkers)

/-- The state that `earlyCancelTrace` leads to. -/
def earlyCancelState : State := (run oneWorker earlyCancelTrace).getD (init oneWorker)

/-- The state that `selfLinkTrace` leads to. -/
def selfLinkState : State := (run oneWorker selfLinkTrace).getD (init oneWorker)

end main

namespace filter

end filter

/-! ## RFC 3986, section 5.2: reference resolution

The algorithm of the RFC, written from its text, to compare with
`(*URL).ResolveReference`: `remove_dot_segments` (5.2.4), `merge` (5.2.3) and
"Transform References" (5.2.2).  `withPath`, `isBare` and `noDoubleSlash`
serve to state the comparison. -/

namespace rfc3986

open url

/-- RFC 3986, 5.2.4, step 2C: the output buffer without its last segment and
the "/" that precedes it, if any. -/
def removeLastSegment (out : List Char) : List Char :=
  match strings.LastIndexByte out '/' with
  | some i => out.take i
  | none => []

/-- RFC 3986, 5.2.4, step 2E: the first path segment of the input buffer,
with its initial "/" if any, up to but not including the next "/". -/
def firstSegment : List Char → List Char
  | [] => []
  | c :: rest => c :: rest.takeWhile fun x => x ≠ '/'

/-- RFC 3986, 5.2.4, one turn of the loop of step 2 on a non-empty input
buffer: the input buffer and the output buffer afterwards. -/
def dotStep (inp out : List Char) : List Char × List Char :=
  if strings.HasPrefix inp ['.', '.', '/'] then (inp.drop 3, out)
  else if strings.HasPrefix inp ['.', '/'] then (inp.drop 2, out)
  else if strings.HasPrefix inp ['/', '.', '/'] then (inp.drop 2, out)
  else if inp = ['/', '.'] then (['/'], out)
  else if strings.HasPrefix inp ['/', '.', '.', '/'] then (inp.drop 3, removeLastSegment out)
  else if inp = ['/', '.', '.'] then (['/'], removeLastSegment out)
  else if inp = ['.'] ∨ inp = ['.', '.'] then ([], out)
  else (inp.drop (firstSegment inp).length, out ++ firstSegment inp)

/-- RFC 3986, 5.2.4, the loop of step 2, at most `fuel` turns. -/
def removeDotSegmentsLoop : Nat → List Char → List Char → List Char
  | 0, _, out => out
  | fuel + 1, inp, out =>
    if inp = [] then out
    else removeDotSegmentsLoop fuel (dotStep inp out).1 (dotStep inp out).2

/-- RFC 3986, 5.2.4, `remove_dot_segments`.  Every turn of the loop shortens
the input buffer, so as many turns as the path has bytes are enough. -/
def removeDotSegments (path : List Char) : List Char :=
  removeDotSegmentsLoop path.length path []

end rfc3986

/-! ## Definitions used in the proofs about `url.resolvePath` -/

namespace rfc3986

open url

/-- Whether a text is empty or begins with "/". -/
def EmptyOrRooted (t : List Char) : Prop := t = [] ∨ t.head? = some '/'

/-- The end of `url.resolvePath`, after its loop: the final "/" for a last
element "." or "..", and the removal of a doubled initial "/". -/
def goFinal (dst : List Char) (last : Option (List Char)) : List Char :=
  if ((if last = some ['.'] ∨ last = some ['.', '.'] then dst ++ ['/'] else dst).length > 1 ∧
      (if last = some ['.'] ∨ last = some ['.', '.'] then dst ++ ['/'] else dst).get? 1
        = some '/') then
    (if last = some ['.'] ∨ last = some ['.', '.'] then dst ++ ['/'] else dst).drop 1
  else (if last = some ['.'] ∨ last = some ['.', '.'] then dst ++ ['/'] else dst)

/-- The path that `url.resolvePath` cleans. -/
def resolveFull (base ref : List Char) : List Char :=
  if ref = [] then base
  else if ref.head? ≠ some '/' then
    (match strings.LastIndexByte base '/' with
      | some i => base.take (i + 1)
      | none => []) ++ ref
  else ref

end rfc3986

/-! ## Theorems: package `strings` -/

namespace strings

theorem Cut_fst_not_mem (sep : Char) : ∀ s : List Char, sep ∉ (Cut s sep).1
  | [] => by simp [Cut]
  | c :: rest => by
    unfold Cut
    split_ifs with h
    · simp
    · simp only [List.mem_cons, not_or]
      exact ⟨fun h' => h h'.symm, Cut_fst_not_mem sep rest⟩

theorem Cut_fst_subset (sep : Char) : ∀ s : List Char, ∀ c ∈ (Cut s sep).1, c ∈ s
  | [] => by simp [Cut]
  | x :: rest => by
    intro c hc
    unfold Cut at hc
    split_ifs at hc with h
    · simp at hc
    · rcases List.mem_cons.1 hc with rfl | hc
      · exact List.mem_cons_self _ _
      · exact List.mem_cons_of_mem _ (Cut_fst_subset sep rest c hc)

theorem Cut_snd_subset (sep : Char) : ∀ s : List Char, ∀ c ∈ (Cut s sep).2.1, c ∈ s
  | [] => by simp [Cut]
  | x :: rest => by
    intro c hc
    unfold Cut at hc
    split_ifs at hc with h
    · exact List.mem_cons_of_mem _ hc
    · exact List.mem_cons_of_mem _ (Cut_snd_subset sep rest c hc)

theorem not_mem_take_of_Count_eq_one (s : List Char) (c : Char)
    (hsuf : HasSuffix s [c] = true) (hcount : Count s c = 1) :
    c ∉ s.take (s.length - 1) := by
  unfold HasSuffix at hsuf
  rw [List.isSuffixOf_iff_suffix] at hsuf
  obtain ⟨t, rfl⟩ := hsuf
  unfold Count at hcount
  simp only [List.count_append, List.count_singleton_self] at hcount
  have h0 : List.count c t = 0 := by omega
  simp only [List.length_append, List.length_singleton, Nat.add_sub_cancel,
    List.take_left']
  exact List.count_eq_zero.1 h0

theorem Split_of_not_mem (sep : Char) : ∀ l : List Char, sep ∉ l → Split l sep = [l]
  | [], _ => rfl
  | c :: rest, h => by
    have hc : c ≠ sep := fun e => h (e ▸ List.mem_cons_self _ _)
    have ih := Split_of_not_mem sep rest (fun hm => h (List.mem_cons_of_mem _ hm))
    simp [Split, hc, ih]

theorem Split_append_sep (sep : Char) (t : List Char) :
    ∀ l : List Char, sep ∉ l → Split (l ++ sep :: t) sep = l :: Split t sep
  | [], _ => by simp [Split]
  | c :: rest, h => by
    have hc : c ≠ sep := fun e => h (e ▸ List.mem_cons_self _ _)
    have ih := Split_append_sep sep t rest (fun hm => h (List.mem_cons_of_mem _ hm))
    simp [Split, hc, ih]

/-- Splitting at the dots gives back the labels that were joined with dots. -/
theorem Split_Join (sep : Char) :
    ∀ labels : List (List Char), labels ≠ [] → (∀ l ∈ labels, sep ∉ l) →
      Split (Join labels [sep]) sep = labels
  | [], h, _ => absurd rfl h
  | [a], _, h => by
    simpa [Join] using Split_of_not_mem sep a (h a (List.mem_singleton_self _))
  | a :: b :: rest, _, h => by
    have ih := Split_Join sep (b :: rest) (List.cons_ne_nil _ _)
      (fun l hl => h l (List.mem_cons_of_mem _ hl))
    have ha := h a (List.mem_cons_self _ _)
    simp only [Join, List.append_assoc, List.singleton_append]
    rw [Split_append_sep sep _ a ha, ih]

theorem TrimSuffix_append_self (p suffix : List Char) : TrimSuffix (p ++ suffix) suffix = p := by
  have h : HasSuffix (p ++ suffix) suffix = true := by
    unfold HasSuffix
    rw [List.isSuffixOf_iff_suffix]
    exact List.suffix_append _ _
  simp [TrimSuffix, h]

theorem TrimSuffix_of_not_HasSuffix (p suffix : List Char) (h : HasSuffix p suffix = false) :
    TrimSuffix p suffix = p := by
  simp [TrimSuffix, h]

end strings

/-! ## Theorems: the text of a URL -/

namespace url

open encoding

/-- Splitting a text at its first delimiter is unambiguous. -/
theorem append_eq_append_of_delim (P : Char → Prop) :
    ∀ (a a' t t' : List Char), (∀ c ∈ a, ¬ P c) → (∀ c ∈ a', ¬ P c) →
      (∀ c, t.head? = some c → P c) → (∀ c, t'.head? = some c → P c) →
      a ++ t = a' ++ t' → a = a' ∧ t = t'
  | [], [], _, _, _, _, _, _, h => ⟨rfl, by simpa using h⟩
  | [], c :: a', t, t', _, ha', ht, _, h => by
    simp only [List.nil_append, List.cons_append] at h
    subst h
    exact absurd (ht c rfl) (ha' c (List.mem_cons_self _ _))
  | c :: a, [], t, t', ha, _, _, ht', h => by
    simp only [List.nil_append, List.cons_append] at h
    subst h
    exact absurd (ht' c rfl) (ha c (List.mem_cons_self _ _))
  | c :: a, c' :: a', t, t', ha, ha', ht, ht', h => by
    simp only [List.cons_append, List.cons.injEq] at h
    obtain ⟨hc, h⟩ := h
    have := append_eq_append_of_delim P a a' t t'
      (fun x hx => ha x (List.mem_cons_of_mem _ hx))
      (fun x hx => ha' x (List.mem_cons_of_mem _ hx)) ht ht' h
    exact ⟨by rw [hc, this.1], this.2⟩

theorem upperhex_ne_delim (n : Nat) (h : n < 16) : upperhex n ≠ '?' ∧ upperhex n ≠ '#' := by
  interval_cases n <;> decide

/-- An escaped text holds no byte that its mode escapes, `%` and `+` and the
hexadecimal digits apart. -/
theorem not_mem_escape (d : Char) (mode : encoding) (hd : shouldEscape d mode = true)
    (hpct : d ≠ '%') (hplus : d ≠ '+') (hhex : ∀ n, n < 16 → upperhex n ≠ d) :
    ∀ s : List Char, d ∉ escape s mode
  | [] => by simp [escape]
  | c :: rest => by
    have ih := not_mem_escape d mode hd hpct hplus hhex rest
    unfold escape
    split_ifs with h1 h2
    · simp [ih, hplus]
    · simp only [List.mem_cons, not_or]
      exact ⟨hpct, (hhex _ (Nat.mod_lt _ (by norm_num))).symm,
        (hhex _ (Nat.mod_lt _ (by norm_num))).symm, ih⟩
    · simp only [List.mem_cons, not_or]
      refine ⟨?_, ih⟩
      rintro rfl
      exact h2 hd

theorem question_not_mem_escape (mode : encoding) (hd : shouldEscape '?' mode = true)
    (s : List Char) : '?' ∉ escape s mode :=
  not_mem_escape '?' mode hd (by decide) (by decide)
    (fun n hn => (upperhex_ne_delim n hn).1) s

theorem hash_not_mem_escape (mode : encoding) (s : List Char) : '#' ∉ escape s mode :=
  not_mem_escape '#' mode (by cases mode <;> decide) (by decide) (by decide)
    (fun n hn => (upperhex_ne_delim n hn).2) s

theorem not_mem_of_validEncoded (d : Char) (mode : encoding) (hd : shouldEscape d mode = true)
    (hd1 : d ∉ ['!', '$', '&', '\'', '(', ')', '*', '+', ',', ';', '=', ':', '@'])
    (hd2 : d ∉ ['[', ']']) (hd3 : d ≠ '%') (s : List Char) (hs : validEncoded s mode = true) :
    d ∉ s := by
  intro hmem
  unfold validEncoded at hs
  rw [List.all_eq_true] at hs
  have := hs d hmem
  simp [hd1, hd2, hd3, hd] at this

theorem NoDelim.nil : NoDelim [] := fun _ h => absurd h (List.not_mem_nil _)

theorem NoDelim.cons {c : Char} {l : List Char} (hc : isDelim c = false) (hl : NoDelim l) :
    NoDelim (c :: l) := by
  intro x hx
  rcases List.mem_cons.1 hx with rfl | hx
  · exact hc
  · exact hl x hx

theorem NoDelim.append {a b : List Char} (ha : NoDelim a) (hb : NoDelim b) :
    NoDelim (a ++ b) := by
  intro x hx
  rcases List.mem_append.1 hx with hx | hx
  · exact ha x hx
  · exact hb x hx

theorem noDelim_iff (l : List Char) : NoDelim l ↔ '?' ∉ l ∧ '#' ∉ l := by
  constructor
  · intro h
    exact ⟨fun hm => absurd (h _ hm) (by decide), fun hm => absurd (h _ hm) (by decide)⟩
  · rintro ⟨h1, h2⟩ c hc
    by_cases hq : c = '?'
    · exact absurd (hq ▸ hc) h1
    · by_cases hh : c = '#'
      · exact absurd (hh ▸ hc) h2
      · simp [isDelim, hq, hh]

theorem noDelim_escape (mode : encoding) (hd : shouldEscape '?' mode = true) (s : List Char) :
    NoDelim (escape s mode) :=
  (noDelim_iff _).2 ⟨question_not_mem_escape mode hd s, hash_not_mem_escape mode s⟩

theorem noDelim_EscapedPath (u : URL) : NoDelim u.EscapedPath := by
  unfold URL.EscapedPath
  split_ifs with h1 h2
  · exact (noDelim_iff _).2
      ⟨not_mem_of_validEncoded '?' encodePath (by decide) (by decide) (by decide)
          (by decide) _ h1.2.1,
        not_mem_of_validEncoded '#' encodePath (by decide) (by decide) (by decide)
          (by decide) _ h1.2.1⟩
  · exact NoDelim.cons (by decide) NoDelim.nil
  · exact noDelim_escape encodePath (by decide) _

theorem noDelim_Userinfo_String (ui : Userinfo) : NoDelim ui.String := by
  unfold Userinfo.String
  apply NoDelim.append (noDelim_escape encodeUserPassword (by decide) _)
  split_ifs
  · exact NoDelim.cons (by decide) (noDelim_escape encodeUserPassword (by decide) _)
  · exact NoDelim.nil

theorem noDelim_authorityString (u : URL) : NoDelim u.authorityString := by
  unfold URL.authorityString
  split_ifs
  all_goals
    first
    | exact NoDelim.nil
    | skip
  all_goals
    refine NoDelim.append (NoDelim.append ?_ ?_) ?_
  all_goals
    first
    | exact NoDelim.nil
    | exact NoDelim.cons (by decide) (NoDelim.cons (by decide) NoDelim.nil)
    | exact noDelim_escape encodeHost (by decide) _
    | skip
  all_goals
    cases u.User with
    | none => exact NoDelim.nil
    | some ui =>
      exact NoDelim.append (noDelim_Userinfo_String ui) (NoDelim.cons (by decide) NoDelim.nil)

theorem noDelim_hierString (u : URL) (hO : NoDelim u.Opaque) (hS : NoDelim u.Scheme) :
    NoDelim u.hierString := by
  have hcol : NoDelim [':'] := NoDelim.cons (by decide) NoDelim.nil
  have hsl : NoDelim ['/'] := NoDelim.cons (by decide) NoDelim.nil
  have hds : NoDelim ['.', '/'] := NoDelim.cons (by decide) hsl
  have hnil : NoDelim [] := NoDelim.nil
  have hauth := noDelim_authorityString u
  have hpath := noDelim_EscapedPath u
  unfold URL.hierString
  simp only
  split_ifs <;> repeat' first | assumption | apply NoDelim.append

theorem queryString_cases (u : URL) :
    (u.queryString = [] ∧ u.RawQuery = []) ∨ u.queryString = '?' :: u.RawQuery := by
  unfold URL.queryString
  by_cases h : u.ForceQuery = true ∨ u.RawQuery ≠ []
  · right; simp only [if_pos h]
  · left
    simp only [if_neg h]
    push_neg at h
    exact ⟨trivial, h.2⟩

theorem fragmentString_head (u : URL) (c : Char) (h : u.fragmentString.head? = some c) :
    c = '#' := by
  unfold URL.fragmentString at h
  split_ifs at h
  · simpa using h.symm
  · simp at h

/-- Two well-formed URLs with different queries have different texts. -/
theorem String_ne_of_RawQuery_ne (u v : URL) (hu : u.WellFormed) (hv : v.WellFormed)
    (hSu : NoDelim u.Scheme) (hSv : NoDelim v.Scheme) (hq : u.RawQuery ≠ v.RawQuery) :
    u.String ≠ v.String := by
  intro heq
  unfold URL.String at heq
  rw [List.append_assoc, List.append_assoc] at heq
  have htail : ∀ w : URL, ∀ c, (w.queryString ++ w.fragmentString).head? = some c →
      isDelim c = true := by
    intro w c hc
    rcases queryString_cases w with ⟨h1, _⟩ | h1
    · rw [h1, List.nil_append] at hc
      rw [fragmentString_head w c hc]; decide
    · rw [h1] at hc
      simp only [List.cons_append, List.head?_cons, Option.some.injEq] at hc
      rw [← hc]; decide
  have hsplit := append_eq_append_of_delim (fun c => isDelim c = true) _ _ _ _
    (fun c hc => by simpa using noDelim_hierString u hu.2 hSu c hc)
    (fun c hc => by simpa using noDelim_hierString v hv.2 hSv c hc)
    (htail u) (htail v) heq
  have h2 := hsplit.2
  have hfrag : ∀ w : URL, ∀ c, w.fragmentString.head? = some c → c = '#' :=
    fragmentString_head
  rcases queryString_cases u with ⟨hu1, hu2⟩ | hu1 <;>
    rcases queryString_cases v with ⟨hv1, hv2⟩ | hv1
  · exact hq (hu2.trans hv2.symm)
  · rw [hu1, hv1, List.nil_append, List.cons_append] at h2
    have := fragmentString_head u '?' (by rw [h2]; rfl)
    exact absurd this (by decide)
  · rw [hu1, hv1, List.nil_append, List.cons_append] at h2
    have := fragmentString_head v '?' (by rw [← h2]; rfl)
    exact absurd this (by decide)
  · rw [hu1, hv1, List.cons_append, List.cons_append, List.cons.injEq] at h2
    have := append_eq_append_of_delim (fun c => c = '#') _ _ _ _
      (fun c hc h => hu.1 (h ▸ hc)) (fun c hc h => hv.1 (h ▸ hc))
      (hfrag u) (hfrag v) h2.2
    exact hq this.1

theorem getSchemeLoop_subset (rawURL : List Char) :
    ∀ (l : List Char) (i : Nat) (scheme rest : List Char),
      getSchemeLoop rawURL l i = some (scheme, rest) → (∀ c ∈ l, c ∈ rawURL) →
      ∀ c ∈ rest, c ∈ rawURL
  | [], i, scheme, rest, h, _ => by
    simp only [getSchemeLoop, Option.some.injEq, Prod.mk.injEq] at h
    rw [← h.2]; exact fun _ hc => hc
  | x :: l, i, scheme, rest, h, hl => by
    have ih := getSchemeLoop_subset rawURL l (i + 1) scheme rest
    have hl' : ∀ c ∈ l, c ∈ rawURL := fun c hc => hl c (List.mem_cons_of_mem _ hc)
    unfold getSchemeLoop at h
    split_ifs at h
    · exact ih h hl'
    · simp only [Option.some.injEq, Prod.mk.injEq] at h
      rw [← h.2]; exact fun _ hc => hc
    · exact ih h hl'
    · simp only [Option.some.injEq, Prod.mk.injEq] at h
      rw [← h.2]; exact hl'
    · simp only [Option.some.injEq, Prod.mk.injEq] at h
      rw [← h.2]; exact fun _ hc => hc

theorem setPath_WellFormed (u u' : URL) (p : List Char) (h : u.setPath p = some u')
    (hu : u.WellFormed) : u'.WellFormed := by
  unfold URL.setPath at h
  cases hp : unescape p encodePath with
  | none => simp [hp] at h
  | some path =>
    simp only [hp, Option.some.injEq] at h
    subst h
    exact hu

theorem setFragment_WellFormed (u u' : URL) (p : List Char) (h : u.setFragment p = some u')
    (hu : u.WellFormed) : u'.WellFormed := by
  unfold URL.setFragment at h
  cases hp : unescape p encodeFragment with
  | none => simp [hp] at h
  | some path =>
    simp only [hp, Option.some.injEq] at h
    subst h
    exact hu

theorem parseRest_WellFormed (url u : URL) (rest : List Char) (viaRequest : Bool)
    (h : parseRest url rest viaRequest = some u) (hq : '#' ∉ url.RawQuery)
    (hO : url.Opaque = []) (hrest : NoDelim rest) : u.WellFormed := by
  have hwf : url.WellFormed := ⟨hq, by rw [hO]; exact NoDelim.nil⟩
  unfold parseRest at h
  split_ifs at h
  all_goals
    first
    | (simp only [Option.some.injEq] at h
       subst h
       exact ⟨hq, hrest⟩)
    | exact setPath_WellFormed _ _ _ h hwf
    | (cases hA : parseAuthority (strings.Cut (rest.drop 2) '/').1 with
       | none => simp [hA] at h
       | some uh =>
         simp only [hA] at h
         exact setPath_WellFormed _ _ _ h hwf)

theorem parse_WellFormed (rawURL : List Char) (viaRequest : Bool) (u : URL)
    (h : parse rawURL viaRequest = some u) (hraw : '#' ∉ rawURL) : u.WellFormed := by
  unfold parse at h
  split_ifs at h with h1 h2 h3
  · simp only [Option.some.injEq] at h
    subst h
    exact ⟨by simp [URL.zero], by simp [URL.zero, NoDelim]⟩
  · cases hS : getScheme rawURL with
    | none => simp [hS] at h
    | some sr =>
      obtain ⟨scheme, rest⟩ := sr
      have hsub : ∀ c ∈ rest, c ∈ rawURL :=
        getSchemeLoop_subset rawURL rawURL 0 scheme rest hS (fun _ hc => hc)
      have hrest : '#' ∉ rest := fun hc => hraw (hsub _ hc)
      simp only [hS] at h
      split_ifs at h with h4
      · refine parseRest_WellFormed _ _ _ _ h (by simp [URL.zero]) rfl ?_
        rw [noDelim_iff]
        exact ⟨strings.not_mem_take_of_Count_eq_one rest '?' h4.1 h4.2,
          fun hc => hrest (List.mem_of_mem_take hc)⟩
      · refine parseRest_WellFormed _ _ _ _ h ?_ rfl ?_
        · exact fun hc => hrest (strings.Cut_snd_subset '?' rest _ hc)
        · rw [noDelim_iff]
          exact ⟨strings.Cut_fst_not_mem '?' rest,
            fun hc => hrest (strings.Cut_fst_subset '?' rest _ hc)⟩

/-- Every URL that `url.Parse` returns is well formed. -/
theorem Parse_WellFormed (rawURL : List Char) (u : URL) (h : Parse rawURL = some u) :
    u.WellFormed := by
  unfold Parse at h
  cases hp : parse (strings.Cut rawURL '#').1 false with
  | none => simp [hp] at h
  | some url =>
    have hwf := parse_WellFormed _ _ _ hp (strings.Cut_fst_not_mem '#' rawURL)
    simp only [hp] at h
    split_ifs at h
    · simp only [Option.some.injEq] at h
      exact h ▸ hwf
    · exact setFragment_WellFormed _ _ _ h hwf

theorem getD_setPath_WellFormed (u : URL) (p : List Char) (hu : u.WellFormed) :
    ((u.setPath p).getD u).WellFormed := by
  cases h : u.setPath p with
  | none => exact hu
  | some u' => exact setPath_WellFormed u u' p h hu

/-- Resolving a well-formed reference against a well-formed base gives a
well-formed URL. -/
theorem ResolveReference_WellFormed (u ref : URL) (hu : u.WellFormed) (hr : ref.WellFormed) :
    (u.ResolveReference ref).WellFormed := by
  have hnil : NoDelim [] := NoDelim.nil
  unfold URL.ResolveReference
  simp only
  split_ifs <;>
    first
    | (apply getD_setPath_WellFormed; first | exact hr | exact ⟨hr.1, hr.2⟩ | exact ⟨hu.1, hr.2⟩)
    | exact hr
    | exact ⟨hr.1, hr.2⟩
    | exact ⟨hu.1, hr.2⟩
    | exact ⟨hu.1, hu.2⟩
    | exact ⟨hr.1, hu.2⟩

end url

/-! ## Theorems: `url.resolvePath` and `(*URL).ResolveReference` against RFC 3986 -/

namespace rfc3986

open url

theorem resolvePath_eq (base ref : List Char) :
    resolvePath base ref =
      if resolveFull base ref = [] then []
      else goFinal ((strings.Split (resolveFull base ref) '/').foldl resolveElem (['/'], true)).1
        (strings.Split (resolveFull base ref) '/').getLast? := rfl

theorem LastIndexByte_cons_slash (r : List Char) :
    strings.LastIndexByte ('/' :: r) '/' =
      match strings.LastIndexByte r '/' with
      | some i => some (i + 1)
      | none => some 0 := by
  simp only [strings.LastIndexByte]
  cases strings.LastIndexByte r '/' <;> simp

theorem eq_nil_of_LastIndexByte_none (out : List Char) (ho : EmptyOrRooted out)
    (h : strings.LastIndexByte out '/' = none) : out = [] := by
  rcases ho with rfl | ho
  · rfl
  · cases out with
    | nil => rfl
    | cons c r =>
      simp only [List.head?_cons, Option.some.injEq] at ho
      subst ho
      rw [LastIndexByte_cons_slash] at h
      cases h' : strings.LastIndexByte r '/' <;> simp [h'] at h

theorem removeDotSegments_nil : removeDotSegments [] = [] := rfl

end rfc3986

/-! ## Theorems: the admission filter -/

namespace filter

open url

theorem Visit_fst_eq_true_iff (f : Filter) (v : URL) :
    (f.Visit v).1 = true ↔
      (normalize v).String ∉ f.visited ∧ f.baseDomain = baseDomain v := by
  unfold Filter.Visit
  have hb : baseDomain (normalize v) = baseDomain v := rfl
  simp only [hb]
  by_cases h1 : (normalize v).String ∈ f.visited
  · simp [h1]
  · by_cases h2 : f.baseDomain = baseDomain v
    · simp [h1, h2]
    · simp [h1, h2]

theorem Visit_visited_of_true (f : Filter) (v : URL) (h : (f.Visit v).1 = true) :
    (f.Visit v).2.visited = (normalize v).String :: f.visited := by
  have h' := (Visit_fst_eq_true_iff f v).1 h
  have hb : baseDomain (normalize v) = baseDomain v := rfl
  unfold Filter.Visit
  simp [h'.1, h'.2, hb]

theorem Visit_snd_of_false (f : Filter) (v : URL) (h : (f.Visit v).1 = false) :
    (f.Visit v).2 = f := by
  unfold Filter.Visit at h ⊢
  by_cases h1 : (normalize v).String ∈ f.visited
  · simp [h1]
  · by_cases h2 : f.baseDomain = baseDomain (normalize v)
    · simp [h1, h2] at h
    · simp [h1, h2]

theorem Visit_visited_subset (f : Filter) (v : URL) : f.visited ⊆ (f.Visit v).2.visited := by
  cases h : (f.Visit v).1
  · rw [Visit_snd_of_false f v h]; exact fun _ h => h
  · rw [Visit_visited_of_true f v h]; exact List.subset_cons_self _ _

theorem Visit_baseDomain (f : Filter) (v : URL) : (f.Visit v).2.baseDomain = f.baseDomain := by
  unfold Filter.Visit
  split_ifs <;> rfl

theorem visitAll_rejects_visited (vs : List URL) (f : Filter) (j : Nat) (w : URL)
    (hw : vs.get? j = some w) (hmem : (normalize w).String ∈ f.visited) :
    (f.visitAll vs).1.get? j = some false := by
  induction vs generalizing f j with
  | nil => simp at hw
  | cons v vs ih =>
    cases j with
    | zero =>
      simp only [List.get?_cons_zero, Option.some.injEq] at hw
      subst hw
      simp only [Filter.visitAll, List.get?_cons_zero, Option.some.injEq]
      cases h : (f.Visit v).1
      · rfl
      · exact absurd hmem ((Visit_fst_eq_true_iff f v).1 h).1
    | succ j =>
      simp only [List.get?_cons_succ] at hw
      simp only [Filter.visitAll, List.get?_cons_succ]
      exact ih _ j hw (Visit_visited_subset f v hmem)

theorem visitAll_at_most_once (vs : List URL) (f : Filter) (i j : Nat) (u w : URL)
    (hij : i < j) (hu : vs.get? i = some u) (hw : vs.get? j = some w)
    (hkey : (normalize u).String = (normalize w).String)
    (hadm : (f.visitAll vs).1.get? i = some true) :
    (f.visitAll vs).1.get? j = some false := by
  induction vs generalizing f i j with
  | nil => simp at hu
  | cons v vs ih =>
    cases j with
    | zero => omega
    | succ j =>
      simp only [List.get?_cons_succ] at hw
      simp only [Filter.visitAll, List.get?_cons_succ]
      cases i with
      | zero =>
        simp only [List.get?_cons_zero, Option.some.injEq] at hu
        subst hu
        simp only [Filter.visitAll, List.get?_cons_zero, Option.some.injEq] at hadm
        apply visitAll_rejects_visited vs _ j w hw
        rw [Visit_visited_of_true f v hadm, ← hkey]
        exact List.mem_cons_self _ _
      | succ i =>
        simp only [List.get?_cons_succ] at hu
        simp only [Filter.visitAll, List.get?_cons_succ] at hadm
        exact ih _ i j (by omega) hu hw hadm

/-- The label that `baseDomain` picks, in terms of the host's labels: the
second from last, or the only one. -/
theorem baseDomain_of_labels (u : URL) (labels : List (List Char)) (hne : labels ≠ [])
    (hdot : ∀ l ∈ labels, '.' ∉ l) (hhost : u.Hostname = strings.Join labels ['.']) :
    baseDomain u =
      if labels.length = 1 then labels.getD 0 [] else labels.getD (labels.length - 2) [] := by
  unfold baseDomain
  simp only [hhost, strings.Split_Join '.' labels hne hdot]

/-- Where the path has no encoding hint, a trailing slash does not change
the normalised URL. -/
theorem normalize_trailing_slash (u : URL) (p : List Char)
    (hp : strings.HasSuffix p ['/'] = false) (hu : u.Path = p ++ ['/']) :
    normalize u = normalize { u with Path := p } := by
  unfold normalize
  simp only [hu, strings.TrimSuffix_append_self, strings.TrimSuffix_of_not_HasSuffix p _ hp]

theorem Visit_rejects_after_admitted (f : Filter) (u w : URL)
    (hkey : (normalize u).String = (normalize w).String) (h : (f.Visit u).1 = true) :
    ((f.Visit u).2.Visit w).1 = false := by
  cases hw : ((f.Visit u).2.Visit w).1
  · rfl
  · have := ((Visit_fst_eq_true_iff _ w).1 hw).1
    rw [Visit_visited_of_true f u h, ← hkey] at this
    exact absurd (List.mem_cons_self _ _) this

/-- C4. At-most-once admission: in any sequence `vs` of `Visit` calls on a
filter (in particular on `NewFilter base`), when calls `i < j` have the same
normalised string and call `i` returned true, call `j` returns false; the
visited set only grows, and a call that returns false leaves the filter
unchanged. -/
theorem visit_admits_at_most_once (f : Filter) (vs : List URL) (i j : Nat) (u w : URL)
    (hij : i < j) (hu : vs.get? i = some u) (hw : vs.get? j = some w)
    (hkey : (normalize u).String = (normalize w).String)
    (hadm : (f.visitAll vs).1.get? i = some true) :
    (f.visitAll vs).1.get? j = some false ∧
      (∀ (g : Filter) (v : URL), g.visited ⊆ (g.Visit v).2.visited) ∧
      (∀ (g : Filter) (v : URL), (g.Visit v).1 = false → (g.Visit v).2 = g) :=
  ⟨visitAll_at_most_once vs f i j u w hij hu hw hkey hadm, Visit_visited_subset,
    Visit_snd_of_false⟩

/-- Witness of C4: `https://example.com/news/` then `http://example.com/news`
on a new filter for `https://example.com`. -/
theorem visit_admits_at_most_once_witness :
    ((NewFilter (scrape.must "https://example.com")).visitAll
        [scrape.must "https://example.com/news/", scrape.must "http://example.com/news"]).1
      = [true, false] ∧
    (((NewFilter (scrape.must "https://example.com")).visitAll
        [scrape.must "https://example.com/news/", scrape.must "http://example.com/news"]).1.get? 1
      = some false ∧
      (∀ (g : Filter) (v : URL), g.visited ⊆ (g.Visit v).2.visited) ∧
      (∀ (g : Filter) (v : URL), (g.Visit v).1 = false → (g.Visit v).2 = g)) :=
  ⟨by decide,
    visit_admits_at_most_once (NewFilter (scrape.must "https://example.com"))
      [scrape.must "https://example.com/news/", scrape.must "http://example.com/news"] 0 1
      (scrape.must "https://example.com/news/") (scrape.must "http://example.com/news")
      (by decide) (by decide) (by decide) (by decide) (by decide)⟩

/-- C6, evaluated where the code departs from it.  `https://example.com/a%2Fb/`
and `https://example.com/a%2Fb` parse to URLs equal in scheme, host, query
and fragment, with paths `/a/b/` and `/a/b`; `Visit` trims `Path` but leaves
the encoding hint `RawPath`, so their keys are `https://example.com/a/b` and
`https://example.com/a%2Fb` and both calls return true, in either order. -/
theorem trailing_slash_escaped_both_admitted :
    (scrape.must "https://example.com/a%2Fb/").Scheme
        = (scrape.must "https://example.com/a%2Fb").Scheme ∧
    (scrape.must "https://example.com/a%2Fb/").Host
        = (scrape.must "https://example.com/a%2Fb").Host ∧
    (scrape.must "https://example.com/a%2Fb/").RawQuery
        = (scrape.must "https://example.com/a%2Fb").RawQuery ∧
    (scrape.must "https://example.com/a%2Fb/").Fragment
        = (scrape.must "https://example.com/a%2Fb").Fragment ∧
    (scrape.must "https://example.com/a%2Fb/").Path = "/a/b/".toList ∧
    (scrape.must "https://example.com/a%2Fb").Path = "/a/b".toList ∧
    Parse "https://example.com/a%2Fb/".toList
        = some (scrape.must "https://example.com/a%2Fb/") ∧
    Parse "https://example.com/a%2Fb".toList
        = some (scrape.must "https://example.com/a%2Fb") ∧
    (normalize (scrape.must "https://example.com/a%2Fb/")).String
        = "https://example.com/a/b".toList ∧
    (normalize (scrape.must "https://example.com/a%2Fb")).String
        = "https://example.com/a%2Fb".toList ∧
    ((NewFilter (scrape.must "https://example.com")).visitAll
        [scrape.must "https://example.com/a%2Fb/", scrape.must "https://example.com/a%2Fb"]).1
      = [true, true] ∧
    ((NewFilter (scrape.must "https://example.com")).visitAll
        [scrape.must "https://example.com/a%2Fb", scrape.must "https://example.com/a%2Fb/"]).1
      = [true, true] := by
  decide

/-- C7. Scheme normalisation: two URLs that differ only in scheme (`u` and
`u` with scheme `s`, in particular one `http` and the other `https`) have
the same normalised string, and in every filter state `Visit` of one after
the other was admitted returns false, in either order. -/
theorem visit_scheme_normalization (f : Filter) (u : URL) (s : List Char) :
    (normalize u).String = (normalize { u with Scheme := s }).String ∧
    ((f.Visit u).1 = true → ((f.Visit u).2.Visit { u with Scheme := s }).1 = false) ∧
    ((f.Visit { u with Scheme := s }).1 = true →
      ((f.Visit { u with Scheme := s }).2.Visit u).1 = false) :=
  ⟨rfl, Visit_rejects_after_admitted f u { u with Scheme := s } rfl,
    Visit_rejects_after_admitted f { u with Scheme := s } u rfl⟩

/-- Witness of C7: `https://example.com/news` and `http://example.com/news`
on a new filter for `https://example.com`. -/
theorem visit_scheme_normalization_witness :
    { scrape.must "https://example.com/news" with Scheme := "http".toList }
      = scrape.must "http://example.com/news" ∧
    ((NewFilter (scrape.must "https://example.com")).visitAll
        [scrape.must "https://example.com/news", scrape.must "http://example.com/news"]).1
      = [true, false] ∧
    (((NewFilter (scrape.must "https://example.com")).Visit
        (scrape.must "https://example.com/news")).2.Visit
      { scrape.must "https://example.com/news" with Scheme := "http".toList }).1 = false :=
  ⟨by decide, by decide,
    (visit_scheme_normalization (NewFilter (scrape.must "https://example.com"))
      (scrape.must "https://example.com/news") "http".toList).2.1 (by decide)⟩

/-- C8. Query distinctness: for well-formed URLs `u`, `v` inside the base
domain with different query strings (whatever their scheme, host and path,
equal or not), neither yet visited, `Visit u` followed by `Visit v` returns
true both times: normalisation leaves the queries untouched and the two
visited keys are different strings. -/
theorem visit_query_distinct (f : Filter) (u v : URL) (hu : u.WellFormed) (hv : v.WellFormed)
    (hdu : baseDomain u = f.baseDomain) (hdv : baseDomain v = f.baseDomain)
    (hq : u.RawQuery ≠ v.RawQuery)
    (hnu : (normalize u).String ∉ f.visited) (hnv : (normalize v).String ∉ f.visited) :
    (f.Visit u).1 = true ∧ ((f.Visit u).2.Visit v).1 = true ∧
      (normalize u).RawQuery = u.RawQuery ∧ (normalize v).RawQuery = v.RawQuery ∧
      (normalize u).String ≠ (normalize v).String := by
  have hhttps : NoDelim "https".toList := by
    intro c hc
    simp only [String.toList, List.mem_cons, List.mem_singleton, List.not_mem_nil,
      or_false] at hc
    rcases hc with rfl | rfl | rfl | rfl | rfl <;> decide
  have hne : (normalize u).String ≠ (normalize v).String :=
    String_ne_of_RawQuery_ne (normalize u) (normalize v) hu hv hhttps hhttps hq
  have h1 : (f.Visit u).1 = true := (Visit_fst_eq_true_iff f u).2 ⟨hnu, hdu.symm⟩
  refine ⟨h1, ?_, rfl, rfl, hne⟩
  rw [Visit_fst_eq_true_iff, Visit_visited_of_true f u h1, Visit_baseDomain]
  refine ⟨?_, hdv.symm⟩
  simp only [List.mem_cons, not_or]
  exact ⟨fun h => hne h.symm, hnv⟩

/-- Witness of C8: `https://example.com/blog?page=2` then
`https://example.com/blog?page=3` on a new filter for `https://example.com`. -/
theorem visit_query_distinct_witness :
    ((NewFilter (scrape.must "https://example.com")).visitAll
        [scrape.must "https://example.com/blog?page=2",
          scrape.must "https://example.com/blog?page=3"]).1 = [true, true] ∧
    (((NewFilter (scrape.must "https://example.com")).Visit
        (scrape.must "https://example.com/blog?page=2")).1 = true ∧
      (((NewFilter (scrape.must "https://example.com")).Visit
          (scrape.must "https://example.com/blog?page=2")).2.Visit
        (scrape.must "https://example.com/blog?page=3")).1 = true ∧
      (normalize (scrape.must "https://example.com/blog?page=2")).RawQuery
        = (scrape.must "https://example.com/blog?page=2").RawQuery ∧
      (normalize (scrape.must "https://example.com/blog?page=3")).RawQuery
        = (scrape.must "https://example.com/blog?page=3").RawQuery ∧
      (normalize (scrape.must "https://example.com/blog?page=2")).String
        ≠ (normalize (scrape.must "https://example.com/blog?page=3")).String) :=
  ⟨by decide,
    visit_query_distinct (NewFilter (scrape.must "https://example.com"))
      (scrape.must "https://example.com/blog?page=2")
      (scrape.must "https://example.com/blog?page=3")
      (Parse_WellFormed "https://example.com/blog?page=2".toList _ (by decide))
      (Parse_WellFormed "https://example.com/blog?page=3".toList _ (by decide))
      (by decide) (by decide) (by decide) (by decide) (by decide)⟩

end filter

/-! ## Theorems: the link resolver and the page fetcher -/

namespace scrape
open url

/-- What `FetchLinks` returns on any status outside 200..299: no links, and
an error built by `fmt.Errorf` whose text has neither the status code nor
the body. -/
theorem FetchLinks_of_bad_status (get : List Char → Except (List Char) Response)
    (htmlParse : List Char → Except (List Char) Node) (u : URL) (resp : Response)
    (hget : get u.String = .ok resp)
    (hcode : resp.StatusCode < 200 ∨ resp.StatusCode > 299) :
    FetchLinks get htmlParse u =
      (none, some (.errorf ("non 2xx code returned fetching ".toList ++ u.String ++
        ": %!d(<nil>)".toList))) := by
  unfold FetchLinks
  simp only [hget, if_pos hcode]

/-- C10, evaluated where the code departs from it.  With a client that
answers status 404 and body `not found`, `FetchLinks` returns no links and
the error text `non 2xx code returned fetching https://example.com/missing:
%!d(<nil>)`, built by `fmt.Errorf` from the nil `err`: it is not the
`ErrorBadResponse` with status 404 and that body, and neither the status nor
the body is in it. -/
theorem FetchLinks_404_error_untyped :
    FetchLinks (fun _ => .ok { StatusCode := 404, Body := "not found".toList })
        (fun _ => .error "unused".toList) (must "https://example.com/missing")
      = (none, some (.errorf
          "non 2xx code returned fetching https://example.com/missing: %!d(<nil>)".toList)) ∧
    (FetchLinks (fun _ => .ok { StatusCode := 404, Body := "not found".toList })
        (fun _ => .error "unused".toList) (must "https://example.com/missing")).2
      ≠ some (.badResponse { StatusCode := 404, Msg := "not found".toList }) := by
  decide

end scrape

/-! ## Theorems: the orchestrator -/

namespace main

open url filter

theorem length_held_of_worker (w : Worker) : w.held.length = if w.holding then 1 else 0 := by
  cases w <;> rfl

theorem length_flatMap_held (ws : List Worker) :
    (ws.flatMap Worker.held).length = ws.countP Worker.holding := by
  induction ws with
  | nil => rfl
  | cons w ws ih =>
    rw [List.flatMap_cons, List.length_append, ih, List.countP_cons, length_held_of_worker]
    cases w.holding
    · simp
    · simp; omega

theorem length_held_of_state (s : State) : s.held.length = s.inFlight :=
  length_flatMap_held s.workers

theorem flatMap_held_set (ws : List Worker) (i : Nat) (w w' : Worker)
    (h : ws.get? i = some w) :
    ∃ a b, ws.flatMap Worker.held = a ++ w.held ++ b ∧
      (ws.set i w').flatMap Worker.held = a ++ w'.held ++ b := by
  induction ws generalizing i with
  | nil => simp at h
  | cons x ws ih =>
    cases i with
    | zero =>
      simp only [List.get?_cons_zero, Option.some.injEq] at h
      subst h
      exact ⟨[], ws.flatMap Worker.held, by simp, by simp⟩
    | succ i =>
      simp only [List.get?_cons_succ] at h
      obtain ⟨a, b, h1, h2⟩ := ih i h
      refine ⟨x.held ++ a, b, ?_, ?_⟩
      · simp [List.flatMap_cons, h1]
      · simp [List.flatMap_cons, h2]

theorem PoolInv_init (cfg : Config) : PoolInv cfg (init cfg) := by
  simp [PoolInv, init, State.held]

theorem PoolInv_step (cfg : Config) (s s' : State) (l : Step) (h : step cfg s l = some s')
    (hinv : PoolInv cfg s) : PoolInv cfg s' := by
  unfold PoolInv at hinv ⊢
  cases l with
  | seed =>
    simp only [step] at h
    split_ifs at h
    simp only [Option.some.injEq] at h
    subst h; exact hinv
  | recvQueue =>
    simp only [step] at h
    split at h
    · split_ifs at h <;> (simp only [Option.some.injEq] at h; subst h; exact hinv)
    · simp at h
  | lease =>
    simp only [step] at h
    split at h
    · rename_i u scraper fl hc hf
      simp only [Option.some.injEq] at h
      subst h
      simp only [State.held, List.flatMap_append, List.flatMap_cons, List.flatMap_nil,
        Worker.held, List.append_nil]
      rw [hf] at hinv
      refine List.Perm.trans ?_ hinv
      simp only [State.held, List.cons_append]
      rw [← List.append_assoc]
      exact List.perm_append_singleton _ _
    · simp at h
  | recvDone i =>
    simp only [step] at h
    split at h
    · rename_i hc hw
      simp only [Option.some.injEq] at h
      subst h
      obtain ⟨a, b, h1, h2⟩ := flatMap_held_set s.workers i _ .exited hw
      simp only [State.held] at hinv ⊢
      rw [h2]; rw [h1] at hinv
      exact hinv
    · simp at h
  | testFree =>
    simp only [step] at h
    split at h
    · simp only [Option.some.injEq] at h; subst h; exact hinv
    · simp at h
  | testQueue =>
    simp only [step] at h
    split at h
    · simp only [Option.some.injEq] at h; subst h; exact hinv
    · simp at h
  | cancel =>
    simp only [step] at h
    split at h
    · simp only [Option.some.injEq] at h; subst h; exact hinv
    · simp at h
  | ctxDone =>
    simp only [step] at h
    split at h
    · split_ifs at h
      simp only [Option.some.injEq] at h; subst h; exact hinv
    · simp at h
  | fetch i urls =>
    simp only [step] at h
    split at h
    · rename_i scraper u hw
      simp only [Option.some.injEq] at h
      subst h
      obtain ⟨a, b, h1, h2⟩ := flatMap_held_set s.workers i _ (.releasing scraper urls) hw
      simp only [State.held] at hinv ⊢
      rw [h2]; rw [h1] at hinv
      exact hinv
    · simp at h
  | release i =>
    simp only [step] at h
    split at h
    · rename_i scraper urls hw
      split_ifs at h
      simp only [Option.some.injEq] at h
      subst h
      obtain ⟨a, b, h1, h2⟩ := flatMap_held_set s.workers i _ (.enqueueing urls) hw
      simp only [State.held] at hinv ⊢
      rw [h2]; rw [h1] at hinv
      refine List.Perm.trans ?_ hinv
      simp only [Worker.held, List.append_nil, List.append_assoc]
      refine List.Perm.append_left _ ?_
      simp only [List.singleton_append]
      exact List.perm_middle.symm
    · simp at h
  | enqueue i =>
    simp only [step] at h
    split at h
    · rename_i u rest hw
      split_ifs at h
      simp only [Option.some.injEq] at h
      subst h
      obtain ⟨a, b, h1, h2⟩ := flatMap_held_set s.workers i _ (.enqueueing rest) hw
      simp only [State.held] at hinv ⊢
      rw [h2]; rw [h1] at hinv
      exact hinv
    · simp at h
  | extCancel =>
    simp only [step, Option.some.injEq] at h
    subst h; exact hinv

theorem PoolInv_runFrom (cfg : Config) (tr : List Step) :
    ∀ s s' : State, runFrom cfg s tr = some s' → PoolInv cfg s → PoolInv cfg s' := by
  induction tr with
  | nil =>
    intro s s' h hinv
    simp only [runFrom, Option.some.injEq] at h
    exact h ▸ hinv
  | cons l tr ih =>
    intro s s' h hinv
    simp only [runFrom] at h
    cases hs : step cfg s l with
    | none => simp [hs] at h
    | some s1 =>
      simp only [hs] at h
      exact ih s1 s' h (PoolInv_step cfg s s1 l hs hinv)

/-- C2. Bounded concurrency: in every state `s` reached by an execution of
`realMain` with `numWorkers = n`, the number of fetches in flight (workers
that hold a scraper taken from the free list and not yet returned) is at most
`n`, the length of the free list plus that number is `n`, no scraper is held
twice, and no held scraper is in the free list. -/
theorem bounded_concurrency (cfg : Config) (tr : List Step) (s : State)
    (h : run cfg tr = some s) :
    s.inFlight ≤ cfg.numWorkers ∧ s.freeList.length + s.inFlight = cfg.numWorkers ∧
      s.held.Nodup ∧ ∀ x ∈ s.held, x ∉ s.freeList := by
  have hinv : PoolInv cfg s := PoolInv_runFrom cfg tr _ s h (PoolInv_init cfg)
  have hlen := hinv.length_eq
  rw [List.length_append, List.length_range, length_held_of_state] at hlen
  have hnd : (s.freeList ++ s.held).Nodup := hinv.nodup_iff.2 (List.nodup_range _)
  rw [List.nodup_append] at hnd
  exact ⟨by omega, hlen, hnd.2.1, fun x hx hf => hnd.2.2 hf hx⟩

/-- Witness of C2: two workers, both fetching at once after `twoFetchesTrace`. -/
theorem bounded_concurrency_witness :
    run twoWorkers twoFetchesTrace = some twoFetchesState ∧
    twoFetchesState.inFlight = 2 ∧ twoFetchesState.freeList = [] ∧
    (twoFetchesState.inFlight ≤ twoWorkers.numWorkers ∧
      twoFetchesState.freeList.length + twoFetchesState.inFlight = twoWorkers.numWorkers ∧
      twoFetchesState.held.Nodup ∧ ∀ x ∈ twoFetchesState.held, x ∉ twoFetchesState.freeList) :=
  ⟨by decide, by decide, by decide,
    bounded_concurrency twoWorkers twoFetchesTrace twoFetchesState (by decide)⟩

/-- C1, evaluated where the code departs from it.  After `earlyCancelTrace`
(one worker) the coordinator has taken the `done` branch, passed both tests
of line 114 and stands at `cancel()`: the queue is empty and the one scraper
is in the free list, yet the second worker, which released its scraper before
its enqueue loop, still holds `https://example.com/b`, never put on the
queue; `cancel()` then closes `ctx.Done()` and that URL is never printed. -/
theorem cancel_with_pending_urls :
    scrape.fetched scrape.echoGet scrape.chainSite (scrape.must "https://example.com")
      = [scrape.must "https://example.com/a"] ∧
    scrape.fetched scrape.echoGet scrape.chainSite (scrape.must "https://example.com/a")
      = [scrape.must "https://example.com/b"] ∧
    run oneWorker earlyCancelTrace = some earlyCancelState ∧
    earlyCancelState.coord = .cancelling ∧ earlyCancelState.queue = [] ∧
    earlyCancelState.freeList.length = oneWorker.numWorkers ∧
    earlyCancelState.cancelled = false ∧
    earlyCancelState.workers.map Worker.pending
      = [[], [scrape.must "https://example.com/b"]] ∧
    (step oneWorker earlyCancelState .cancel).map (fun s => s.cancelled) = some true ∧
    (step oneWorker earlyCancelState .cancel).map (fun s => s.workers.map Worker.pending)
      = some [[], [scrape.must "https://example.com/b"]] ∧
    (step oneWorker earlyCancelState .cancel).map (fun s => s.printed)
      = some ["https://example.com".toList, "https://example.com/a".toList] := by
  decide

/-- C3, evaluated where the code departs from it.  The base page links only
to itself, a link the filter rejects.  After `selfLinkTrace` (one worker, no
outside cancellation) `cancel()` has not been called, the coordinator waits
at the `select`, the queue is empty, the scraper is free and the only worker
has ended, so no `done` is pending: no step but a cancellation from outside
is enabled, and the crawl never reaches the terminated state. -/
theorem stuck_after_rejected_self_link :
    scrape.fetched scrape.echoGet scrape.selfSite oneWorker.base = [oneWorker.base] ∧
    run oneWorker selfLinkTrace = some selfLinkState ∧
    Step.extCancel ∉ selfLinkTrace ∧
    (selfLinkState.f.Visit oneWorker.base).1 = false ∧
    selfLinkState.cancelled = false ∧ selfLinkState.coord = .selecting ∧
    selfLinkState.queue = [] ∧ selfLinkState.freeList.length = oneWorker.numWorkers ∧
    selfLinkState.workers = [.exited] ∧
    ∀ l : Step, l ≠ .extCancel → step oneWorker selfLinkState l = none := by
  have hw : selfLinkState.workers = [.exited] := by decide
  have hget : ∀ i : Nat, selfLinkState.workers.get? i = some .exited ∨
      selfLinkState.workers.get? i = none := by
    intro i
    rw [hw]
    cases i with
    | zero => exact Or.inl rfl
    | succ i => exact Or.inr rfl
  refine ⟨by decide, by decide, by decide, by decide, by decide, by decide, by decide,
    by decide, hw, ?_⟩
  intro l hl
  cases l with
  | extCancel => exact absurd rfl hl
  | seed => decide
  | recvQueue => decide
  | lease => decide
  | testFree => decide
  | testQueue => decide
  | cancel => decide
  | ctxDone => decide
  | recvDone i =>
    have hc : selfLinkState.coord = .selecting := by decide
    rcases hget i with h | h <;> simp only [step, h, hc]
  | fetch i urls => rcases hget i with h | h <;> simp only [step, h]
  | release i => rcases hget i with h | h <;> simp only [step, h]
  | enqueue i => rcases hget i with h | h <;> simp only [step, h]

/-- The same crawl terminates when the `select` takes the link before the
`done`: the hang depends on the choice the `select` makes. -/
theorem self_link_terminates_queue_first :
    (run oneWorker selfLinkTraceQueueFirst).map (fun s => s.cancelled) = some true := by
  decide

end main

end Crawl
